import Mathlib

/-!
Verification of the block rendering and drag engine in
`src/core/block_horizontal_scratch.js` (Blockly.BlockSvg, horizontal
Scratch variant).  Every definition below is a shallow embedding of the
corresponding JavaScript function; machine numbers are modelled as
rationals (all the constants are small integers, and JavaScript doubles
behave exactly on them in the ranges exercised here).
-/

/-! ## Layout constants (lines 766-806 of the source) -/

/-- `Blockly.BlockSvg.SEP_SPACE_X` -/
def SEP_SPACE_X : ℚ := 8

/-- `Blockly.BlockSvg.SEP_SPACE_Y` -/
def SEP_SPACE_Y : ℚ := 8

/-- `Blockly.BlockSvg.MIN_BLOCK_Y` -/
def MIN_BLOCK_Y : ℚ := 25

/-- `Blockly.BlockSvg.TAB_WIDTH` -/
def TAB_WIDTH : ℚ := 8

/-- `Blockly.BlockSvg.NOTCH_HEIGHT` -/
def NOTCH_HEIGHT : ℚ := 32

/-- `Blockly.BlockSvg.CORNER_RADIUS` -/
def CORNER_RADIUS : ℚ := 4

/-- `Blockly.BlockSvg.HAT_CORNER_RADIUS` -/
def HAT_CORNER_RADIUS : ℚ := 16

/-! ## Footprint query (`getHeightWidth`, lines 321-340)

A block chain: `getNextBlock()` follows the `nextConnection` target, so a
block that has a chained next block necessarily owns a `nextConnection`.
`Chain.cons` is a block with a connected next block; `Chain.last` is the
end of the chain, carrying the three connection-existence flags that the
data model gives every block (`previousConnection`, `nextConnection`,
`outputConnection`).  Heights and widths are the block's own `this.height`
and `this.width`. -/

inductive Chain where
  | last (height width : ℚ)
      (hasPrevConn hasNextConn hasOutputConn : Bool)
  | cons (height width : ℚ)
      (hasPrevConn hasOutputConn : Bool) (rest : Chain)

/-- `Blockly.BlockSvg.prototype.getHeightWidth` (lines 321-340): the
block's own size, plus the footprint of the chained next block minus the
4-unit tab height, or a 2-unit bottom margin when the block has neither a
next- nor an output-connection. -/
def getHeightWidth : Chain → ℚ × ℚ
  | .last h w _ hn ho =>
      if !hn && !ho then (h + 2, w) else (h, w)
  | .cons h w _ _ rest =>
      let nhw := getHeightWidth rest
      (h + nhw.1 - 4, max w nhw.2)

/-- Own heights of the blocks along a chain, top to bottom. -/
def chainHeights : Chain → List ℚ
  | .last h _ _ _ _ => [h]
  | .cons h _ _ _ rest => h :: chainHeights rest

/-- Own widths of the blocks along a chain, top to bottom. -/
def chainWidths : Chain → List ℚ
  | .last _ w _ _ _ => [w]
  | .cons _ w _ _ rest => w :: chainWidths rest

/-- Number of links (chained next blocks) in a chain. -/
def chainLinks : Chain → ℕ
  | .last _ _ _ _ _ => 0
  | .cons _ _ _ _ rest => chainLinks rest + 1

/-- The terminal block's bottom margin: 2 when the last block of the chain
has neither a next- nor an output-connection, else 0. -/
def chainMargin : Chain → ℚ
  | .last _ _ _ hn ho => if !hn && !ho then 2 else 0
  | .cons _ _ _ _ rest => chainMargin rest

/-- C6.  `getHeightWidth` combines the block with every block chained
below it: at each link the footprint height is the block's height plus the
chained footprint's height minus the fixed 4-unit tab adjustment, and the
width is the maximum of the block's width and the chained footprint's
width; consequently over the whole chain the reported height is the sum of
the own heights minus 4 per link plus the terminal margin, and the
reported width is the maximum of the own widths. -/
theorem getHeightWidth_recursive_footprint (c : Chain) :
    (∀ (h w : ℚ) (p o : Bool) (rest : Chain),
        getHeightWidth (Chain.cons h w p o rest) =
          (h + (getHeightWidth rest).1 - 4,
           max w (getHeightWidth rest).2)) ∧
    (getHeightWidth c).1 =
      (chainHeights c).sum - 4 * (chainLinks c : ℚ) + chainMargin c ∧
    ((getHeightWidth c).2 ∈ chainWidths c ∧
      ∀ x ∈ chainWidths c, x ≤ (getHeightWidth c).2) := by
  refine ⟨fun h w p o rest => rfl, ?_, ?_⟩
  · induction c with
    | last h w hp hn ho =>
        by_cases hcase : (!hn && !ho) = true <;>
          simp [getHeightWidth, chainHeights, chainLinks, chainMargin, hcase]
    | cons h w hp ho rest ih =>
        simp only [getHeightWidth, chainHeights, chainLinks, chainMargin,
          List.sum_cons, Nat.cast_add, Nat.cast_one]
        rw [ih]
        ring
  · induction c with
    | last h w hp hn ho =>
        by_cases hcase : (!hn && !ho) = true <;>
          simp [getHeightWidth, chainWidths, hcase]
    | cons h w hp ho rest ih =>
        simp only [getHeightWidth, chainWidths, List.mem_cons]
        constructor
        · rcases max_cases w (getHeightWidth rest).2 with ⟨hm, _⟩ | ⟨hm, _⟩
          · exact Or.inl hm
          · rw [hm]
            exact Or.inr ih.1
        · rintro x (rfl | hx)
          · exact le_max_left _ _
          · exact le_trans (ih.2 x hx) (le_max_right _ _)

/-- C6 witness: the footprint of a concrete two-block chain dominates a
concrete member of its width list. -/
theorem getHeightWidth_recursive_footprint_witness :
    (5 : ℚ) ∈ chainWidths
        (Chain.cons 10 5 false false (Chain.last 7 3 true true false)) ∧
    (5 : ℚ) ≤ (getHeightWidth
        (Chain.cons 10 5 false false (Chain.last 7 3 true true false))).2 := by
  refine ⟨by simp [chainWidths], ?_⟩
  exact (getHeightWidth_recursive_footprint
      (Chain.cons 10 5 false false (Chain.last 7 3 true true false))).2.2.2
    5 (by simp [chainWidths])

/-- C7 counterexample.  A last block with a previous-connection but no
next- and no output-connection: the claim says a block that has a
previous-connection does not receive the extra bottom margin, i.e. its
reported height would stay 10; the code adds the margin and reports 12. -/
theorem getHeightWidth_margin_ignores_prev_counterexample :
    getHeightWidth (Chain.last 10 5 true false false) = (12, 5) ∧
    (12 : ℚ) ≠ 10 := by
  constructor
  · simp [getHeightWidth]
    norm_num
  · norm_num

/-- C7 amended.  The 2-unit bottom margin is applied exactly when the
(unchained) block has neither a next-connection nor an output-connection;
the presence or absence of a previous-connection plays no role. -/
theorem getHeightWidth_margin_iff_no_next_no_output
    (h w : ℚ) (p n o : Bool) :
    (getHeightWidth (Chain.last h w p n o)).1 =
      h + (if n = false ∧ o = false then 2 else 0) := by
  cases n <;> cases o <;> simp [getHeightWidth]

/-! ## Grid snapping (`snapToGrid`, lines 292-319) -/

/-- JavaScript `Math.round`: round half toward positive infinity. -/
def jround (x : ℚ) : ℤ := ⌊x + 1/2⌋

/-- The state `snapToGrid` consults: the block's surface position, the
workspace reference, the global drag mode, parenthood, flyout membership,
and the grid configuration. -/
structure GridBlock where
  x : ℚ
  y : ℚ
  hasWorkspace : Bool
  dragMode : ℕ
  hasParent : Bool
  isInFlyout : Bool
  snapEnabled : Bool
  spacing : ℚ

/-- `Blockly.BlockSvg.prototype.snapToGrid` (lines 292-319), returning the
block's resulting surface position. -/
def snapToGrid (b : GridBlock) : ℚ × ℚ :=
  if !b.hasWorkspace then (b.x, b.y)
  else if b.dragMode ≠ 0 then (b.x, b.y)
  else if b.hasParent then (b.x, b.y)
  else if b.isInFlyout then (b.x, b.y)
  else if !b.snapEnabled then (b.x, b.y)
  else
    let half := b.spacing / 2
    let dx : ℚ := (jround ((b.x - half) / b.spacing) : ℚ) * b.spacing + half - b.x
    let dy : ℚ := (jround ((b.y - half) / b.spacing) : ℚ) * b.spacing + half - b.y
    let dxr : ℚ := (jround dx : ℚ)
    let dyr : ℚ := (jround dy : ℚ)
    if dxr ≠ 0 ∨ dyr ≠ 0 then (b.x + dxr, b.y + dyr) else (b.x, b.y)

/-- The grid target coordinate for a coordinate `p` and spacing `s`:
`round((p - s/2) / s) * s + s/2`. -/
def gridTarget (p s : ℚ) : ℚ := (jround ((p - s / 2) / s) : ℚ) * s + s / 2

theorem jround_intCast (k : ℤ) : jround (k : ℚ) = k := by
  unfold jround
  rw [add_comm, Int.floor_add_int]
  norm_num

/-- C2.  With grid snapping enabled, no drag in progress, a live workspace
and a top-level block outside the flyout, `snapToGrid` moves the block by
the integer-rounded offset toward the grid target
`round((p - s/2)/s)*s + s/2` in each coordinate (so whenever that ideal
offset is already an integer, the coordinate lands exactly on the target);
and it performs no movement at all during a drag, for nested blocks, or
for flyout blocks. -/
theorem snapToGrid_spec (b : GridBlock) (hs : 0 < b.spacing) :
    (b.hasWorkspace = true → b.dragMode = 0 → b.hasParent = false →
      b.isInFlyout = false → b.snapEnabled = true →
      snapToGrid b =
        (b.x + (jround (gridTarget b.x b.spacing - b.x) : ℚ),
         b.y + (jround (gridTarget b.y b.spacing - b.y) : ℚ)) ∧
      (∀ k : ℤ, gridTarget b.x b.spacing - b.x = (k : ℚ) →
        (snapToGrid b).1 = gridTarget b.x b.spacing)) ∧
    (b.dragMode ≠ 0 → snapToGrid b = (b.x, b.y)) ∧
    (b.hasParent = true → snapToGrid b = (b.x, b.y)) ∧
    (b.isInFlyout = true → snapToGrid b = (b.x, b.y)) := by
  refine ⟨fun h1 h2 h3 h4 h5 => ?_, fun h => ?_, fun h => ?_, fun h => ?_⟩
  · have hmain : snapToGrid b =
        (b.x + (jround (gridTarget b.x b.spacing - b.x) : ℚ),
         b.y + (jround (gridTarget b.y b.spacing - b.y) : ℚ)) := by
      unfold snapToGrid gridTarget
      rw [h1, h2, h3, h4, h5]
      simp only [Bool.not_true, Bool.false_eq_true, if_false,
        ne_eq, not_true_eq_false, if_true]
      split
      · ring_nf
      · rename_i hz
        push_neg at hz
        rw [hz.1, hz.2]
        norm_num
    refine ⟨hmain, fun k hk => ?_⟩
    have : (jround (gridTarget b.x b.spacing - b.x) : ℚ) =
        gridTarget b.x b.spacing - b.x := by
      rw [hk, jround_intCast]
    rw [hmain]
    simp only
    rw [this]
    ring
  · unfold snapToGrid
    simp [h]
  · unfold snapToGrid
    simp [h]
  · unfold snapToGrid
    simp [h]

/-- C2 witness: a concrete top-level block at `(5, 0)` with spacing `40`
snaps to `(20, 20)`. -/
theorem snapToGrid_spec_witness :
    (0 : ℚ) < 40 ∧
    snapToGrid ⟨5, 0, true, 0, false, false, true, 40⟩ = (20, 20) := by
  refine ⟨by norm_num, ?_⟩
  have h := (snapToGrid_spec ⟨5, 0, true, 0, false, false, true, 40⟩
      (by norm_num)).1 rfl rfl rfl rfl rfl
  rw [h.1]
  norm_num [gridTarget, jround]

/-! ## Geometry pass (`renderCompute_`, lines 1359-1389) and the icon
positioning of the draw pass (`renderDraw_`, lines 1558-1564) -/

/-- A field on a block input row.  `isImage` is the
`field instanceof Blockly.FieldImage` test; `fid` identifies the field;
`fw`/`fh` are `field.getSize().width`/`.height`. -/
structure FieldM where
  isImage : Bool
  fid : ℕ
  fw : ℚ
  fh : ℚ
deriving DecidableEq

/-- A block input: its `type == Blockly.NEXT_STATEMENT` test and its
field row. -/
structure InputM where
  isNextStatement : Bool
  fieldRow : List FieldM
deriving DecidableEq

/-- The metrics object built by `renderCompute_`. -/
structure RMetrics where
  hasStatement : Bool
  icon : Option FieldM
  width : ℚ
  height : ℚ
deriving DecidableEq

/-- The icon-assignment step of the `renderCompute_` field loop:
`if (field instanceof Blockly.FieldImage) { metrics.icon = field; }`. -/
def iconStep (acc : Option FieldM) (field : FieldM) : Option FieldM :=
  if field.isImage then some field else acc

/-- `Blockly.BlockSvg.prototype.renderCompute_` (lines 1359-1389). -/
def renderCompute (inputList : List InputM) : RMetrics :=
  let hasStatement := inputList.foldl
    (fun acc input => acc || input.isNextStatement) false
  let icon := inputList.foldl
    (fun acc input => input.fieldRow.foldl iconStep acc) none
  let iconSize : ℚ × ℚ := match icon with
    | some f => (f.fw, f.fh)
    | none => (0, 0)
  { hasStatement := hasStatement, icon := icon,
    width := SEP_SPACE_X * 2 + iconSize.1,
    height := max (SEP_SPACE_Y * 2 + iconSize.2)
      (NOTCH_HEIGHT + 16 + CORNER_RADIUS * 2) }

/-- The icon translate computed by `renderDraw_` (lines 1558-1564) for the
icon stored in the metrics, if any: identifies which field is positioned
and where. -/
def renderDrawIconPos (m : RMetrics) : Option (ℕ × (ℚ × ℚ)) :=
  match m.icon with
  | some f => some (f.fid, (m.width - f.fw - SEP_SPACE_X / 2, SEP_SPACE_Y))
  | none => none

/-- All fields of all inputs, in input/field declaration order. -/
def allFields (inputList : List InputM) : List FieldM :=
  inputList.foldr (fun i acc => i.fieldRow ++ acc) []

/-- The claim's reading (spec wording, for comparison): the FIRST image
field in input/field order. -/
def firstImageField (inputList : List InputM) : Option FieldM :=
  (allFields inputList).find? (·.isImage)

/-- The LAST image field in input/field order. -/
def lastImageField (inputList : List InputM) : Option FieldM :=
  (allFields inputList).reverse.find? (·.isImage)

theorem allFields_cons (i : InputM) (rest : List InputM) :
    allFields (i :: rest) = i.fieldRow ++ allFields rest := rfl

theorem iconStep_foldl_eq (l : List FieldM) (acc : Option FieldM) :
    l.foldl iconStep acc = (l.reverse.find? (·.isImage)).or acc := by
  induction l generalizing acc with
  | nil => simp
  | cons f rest ih =>
      rw [List.foldl_cons, ih, List.reverse_cons, List.find?_append]
      cases hfind : rest.reverse.find? (·.isImage) with
      | some g => simp [Option.or, Option.orElse]
      | none =>
          by_cases hf : f.isImage = true <;>
            simp [iconStep, hf, Option.or, Option.orElse, List.find?]

theorem foldl_fields_concat (il : List InputM) (acc : Option FieldM) :
    il.foldl (fun a input => input.fieldRow.foldl iconStep a) acc =
      (allFields il).foldl iconStep acc := by
  induction il generalizing acc with
  | nil => rfl
  | cons i rest ih => simp [allFields_cons, List.foldl_append, ih]

theorem renderCompute_icon_foldl (inputList : List InputM)
    (acc : Option FieldM) :
    inputList.foldl (fun a input => input.fieldRow.foldl iconStep a) acc =
      ((allFields inputList).reverse.find? (·.isImage)).or acc := by
  rw [foldl_fields_concat, iconStep_foldl_eq]

/-- C8 counterexample.  An input row declaring two image fields: the
geometry pass stores the SECOND (last) image field in the metrics, not the
first one that the claim predicts. -/
theorem renderCompute_icon_first_match_counterexample :
    (renderCompute [⟨false, [⟨true, 1, 10, 10⟩, ⟨true, 2, 20, 20⟩]⟩]).icon =
      some ⟨true, 2, 20, 20⟩ ∧
    firstImageField [⟨false, [⟨true, 1, 10, 10⟩, ⟨true, 2, 20, 20⟩]⟩] =
      some ⟨true, 1, 10, 10⟩ ∧
    (renderCompute [⟨false, [⟨true, 1, 10, 10⟩, ⟨true, 2, 20, 20⟩]⟩]).icon ≠
      firstImageField [⟨false, [⟨true, 1, 10, 10⟩, ⟨true, 2, 20, 20⟩]⟩] := by
  refine ⟨rfl, rfl, ?_⟩
  intro h
  simp [renderCompute, firstImageField, allFields, List.find?, iconStep] at h

/-- C8 amended.  When a block's inputs declare several image fields, the
single icon stored by the geometry pass is the LAST matching image field
in input/field order (each match overwrites the previous one), and the
draw pass positions exactly that icon. -/
theorem renderCompute_icon_last_match (inputList : List InputM) :
    (renderCompute inputList).icon = lastImageField inputList ∧
    renderDrawIconPos (renderCompute inputList) =
      (lastImageField inputList).map
        (fun f => (f.fid,
          ((renderCompute inputList).width - f.fw - SEP_SPACE_X / 2,
           SEP_SPACE_Y))) := by
  have h1 : (renderCompute inputList).icon = lastImageField inputList := by
    unfold renderCompute
    simp only
    rw [renderCompute_icon_foldl]
    cases hfind : (allFields inputList).reverse.find? (·.isImage) <;>
      simp [lastImageField, hfind, Option.or]
  refine ⟨h1, ?_⟩
  unfold renderDrawIconPos
  rw [h1]
  cases lastImageField inputList <;> simp

/-! ## Connection translation (`moveBy` lines 282-287,
`moveConnections_` lines 576-602)

A block carries its `rendered` flag, the absolute positions of its own
connections (`getConnections_(false)`), and its `childBlocks_` list. -/

mutual
inductive BlockM where
  | mk (rendered : Bool) (conns : List (ℚ × ℚ)) (children : BlockForest)
inductive BlockForest where
  | nil
  | cons (b : BlockM) (rest : BlockForest)
end

/-- Translation of one connection position by `(dx, dy)`
(`Blockly.Connection.prototype.moveBy`). -/
def shiftP (dx dy : ℚ) (p : ℚ × ℚ) : ℚ × ℚ := (p.1 + dx, p.2 + dy)

mutual
/-- `Blockly.BlockSvg.prototype.moveConnections_` (lines 583-602): early
return when the block is not rendered, else translate the block's own
connections and recurse through `childBlocks_`. -/
def moveConnections (dx dy : ℚ) : BlockM → BlockM
  | .mk r cs ch =>
      if r then .mk r (cs.map (shiftP dx dy)) (moveConnectionsF dx dy ch)
      else .mk r cs ch
def moveConnectionsF (dx dy : ℚ) : BlockForest → BlockForest
  | .nil => .nil
  | .cons b rest =>
      .cons (moveConnections dx dy b) (moveConnectionsF dx dy rest)
end

/-- A block together with its surface position, as moved by `moveBy`. -/
structure Placed where
  pos : ℚ × ℚ
  blk : BlockM

/-- `Blockly.BlockSvg.prototype.moveBy` (lines 282-287): translate the
SVG root and call `moveConnections_`. -/
def moveBy (dx dy : ℚ) (p : Placed) : Placed :=
  ⟨shiftP dx dy p.pos, moveConnections dx dy p.blk⟩

mutual
/-- All connection positions of a block and its descendants. -/
def allConns : BlockM → List (ℚ × ℚ)
  | .mk _ cs ch => cs ++ allConnsF ch
def allConnsF : BlockForest → List (ℚ × ℚ)
  | .nil => []
  | .cons b rest => allConns b ++ allConnsF rest
end

mutual
/-- Whether every block of the tree is rendered. -/
def allRendered : BlockM → Bool
  | .mk r _ ch => r && allRenderedF ch
def allRenderedF : BlockForest → Bool
  | .nil => true
  | .cons b rest => allRendered b && allRenderedF rest
end

mutual
theorem moveConnections_allConns_aux (dx dy : ℚ) (b : BlockM)
    (hr : allRendered b = true) :
    allConns (moveConnections dx dy b) = (allConns b).map (shiftP dx dy) := by
  match b with
  | .mk r cs ch =>
      simp only [allRendered, Bool.and_eq_true] at hr
      simp only [moveConnections, hr.1, if_true, allConns, List.map_append]
      rw [moveConnectionsF_allConns_aux dx dy ch hr.2]
theorem moveConnectionsF_allConns_aux (dx dy : ℚ) (f : BlockForest)
    (hf : allRenderedF f = true) :
    allConnsF (moveConnectionsF dx dy f) = (allConnsF f).map (shiftP dx dy) := by
  match f with
  | .nil => rfl
  | .cons b rest =>
      simp only [allRenderedF, Bool.and_eq_true] at hf
      simp only [moveConnectionsF, allConnsF, List.map_append]
      rw [moveConnections_allConns_aux dx dy b hf.1,
        moveConnectionsF_allConns_aux dx dy rest hf.2]
end

/-- C5 counterexample.  `moveConnections_` returns early on an unrendered
block, so after `moveBy(1, 0)` on an unrendered block with one connection
at `(0, 0)` that connection is still at `(0, 0)`, not at the translated
`(1, 0)` the claim requires. -/
theorem moveBy_unrendered_counterexample :
    allConns (moveBy 1 0 ⟨(0, 0), BlockM.mk false [(0, 0)] .nil⟩).blk
      = [(0, 0)] ∧
    (allConns (BlockM.mk false [(0, 0)] .nil)).map (shiftP 1 0) = [(1, 0)] ∧
    ([((0 : ℚ), (0 : ℚ))]) ≠ [((1 : ℚ), (0 : ℚ))] := by
  refine ⟨?_, ?_, ?_⟩
  · simp [moveBy, moveConnections, allConns, allConnsF]
  · simp [allConns, allConnsF, shiftP]
  · intro h
    rw [List.cons.injEq, Prod.mk.injEq] at h
    exact absurd h.1.1 (by norm_num)

/-- C5 amended.  When every block of the moved subtree is rendered,
`moveBy(dx, dy)` translates every connection of the block and of all its
descendants by exactly `(dx, dy)` (the code skips the subtree below any
unrendered block). -/
theorem moveBy_translates_connections (dx dy : ℚ) (p : Placed)
    (hr : allRendered p.blk = true) :
    allConns (moveBy dx dy p).blk = (allConns p.blk).map (shiftP dx dy) :=
  moveConnections_allConns_aux dx dy p.blk hr

/-- C5 witness: a concrete fully-rendered two-level tree, moved by
`(3, -2)`. -/
theorem moveBy_translates_connections_witness :
    allRendered (BlockM.mk true [(1, 1)]
      (.cons (BlockM.mk true [(5, 0)] .nil) .nil)) = true ∧
    allConns (moveBy 3 (-2) ⟨(0, 0), BlockM.mk true [(1, 1)]
        (.cons (BlockM.mk true [(5, 0)] .nil) .nil)⟩).blk
      = [(4, -1), (8, -2)] := by
  have hr : allRendered (BlockM.mk true [(1, 1)]
      (.cons (BlockM.mk true [(5, 0)] .nil) .nil)) = true := by
    simp [allRendered, allRenderedF]
  refine ⟨hr, ?_⟩
  rw [moveBy_translates_connections 3 (-2)
      ⟨(0, 0), BlockM.mk true [(1, 1)]
        (.cons (BlockM.mk true [(5, 0)] .nil) .nil)⟩ hr]
  simp [allConns, allConnsF, shiftP]
  norm_num

/-! ## Deferred warning-text tasks (`setWarningText`, lines 1170-1231)

`this.setWarningText.pid_` resolves through the prototype chain to a
property of the single shared `Blockly.BlockSvg.prototype.setWarningText`
function object, so the pending-timeout database is ONE map keyed by
warning id only, shared by every block (the code's own comment claims it
is per block).  A pending task is `(warning id, owner block, timer
token)`; the model below is the `Blockly.dragMode_ == 2` deferral path:
kill every pending entry when the id is empty, else kill the pending
entry with the same id, then schedule the new task. -/

def setWarningDeferred (blk tok : ℕ) (wid : String)
    (db : List (String × ℕ × ℕ)) : List (String × ℕ × ℕ) :=
  (if wid = "" then [] else db.filter (fun e => e.1 ≠ wid)) ++ [(wid, blk, tok)]

/-- C9 at its failing input.  Block 0 has a pending deferred update for
warning id `w` (token 1); block 1 then calls `setWarningText` with the
same id `w`: block 0's pending task is cancelled by the other block,
contradicting the per-(block, id) keying the claim states. -/
theorem setWarningText_shared_pid_cancels_across_blocks :
    ("w", 0, 1) ∈ setWarningDeferred 0 1 "w" [] ∧
    setWarningDeferred 1 2 "w" (setWarningDeferred 0 1 "w" []) =
      [("w", 1, 2)] ∧
    ("w", 0, 1) ∉ setWarningDeferred 1 2 "w" (setWarningDeferred 0 1 "w" []) := by
  refine ⟨?_, ?_, ?_⟩ <;> simp [setWarningDeferred]

/-! ## Outline path assembly (`renderDraw_` lines 1536-1565,
`renderDrawLeft_` 1574-1600, `renderDrawBottom_` 1612-1703,
`renderDrawRight_` 1712-1747, `renderDrawTop_` 1756-1770)

The emitted SVG path commands, with their standard semantics: a current
point and the start point of the current subpath; `close` draws the
closing segment back to the subpath start. -/

inductive PathCmd where
  | moveRel (dx dy : ℚ)
  | arcAbs (x y : ℚ)
  | arcRel (dx dy : ℚ)
  | lineRel (dx dy : ℚ)
  | hAbs (x : ℚ)
  | vAbs (y : ℚ)
  | hRel (dx : ℚ)
  | vRel (dy : ℚ)
  | close

structure PathState where
  cur : ℚ × ℚ
  start : ℚ × ℚ

/-- One SVG path command applied to the path state (endpoint geometry;
arc curvature does not affect the endpoints). -/
def stepCmd (s : PathState) : PathCmd → PathState
  | .moveRel dx dy =>
      ⟨(s.cur.1 + dx, s.cur.2 + dy), (s.cur.1 + dx, s.cur.2 + dy)⟩
  | .arcAbs x y => ⟨(x, y), s.start⟩
  | .arcRel dx dy => ⟨(s.cur.1 + dx, s.cur.2 + dy), s.start⟩
  | .lineRel dx dy => ⟨(s.cur.1 + dx, s.cur.2 + dy), s.start⟩
  | .hAbs x => ⟨(x, s.cur.2), s.start⟩
  | .vAbs y => ⟨(s.cur.1, y), s.start⟩
  | .hRel dx => ⟨(s.cur.1 + dx, s.cur.2), s.start⟩
  | .vRel dy => ⟨(s.cur.1, s.cur.2 + dy), s.start⟩
  | .close => ⟨s.start, s.start⟩

def execPath (cmds : List PathCmd) (s : PathState) : PathState :=
  cmds.foldl stepCmd s

/-- `Blockly.BlockSvg.NOTCH_PATH_DOWN = 'l 8,8 0,16 -8,8'`. -/
def NOTCH_PATH_DOWN : List PathCmd :=
  [.lineRel 8 8, .lineRel 0 16, .lineRel (-8) 8]

/-- `Blockly.BlockSvg.NOTCH_PATH_UP = 'l 8,-8 0,-16 -8,-8'`. -/
def NOTCH_PATH_UP : List PathCmd :=
  [.lineRel 8 (-8), .lineRel 0 (-16), .lineRel (-8) (-8)]

/-- `renderDrawLeft_` (lines 1574-1600): notch top treatment when a
previous-connection exists, hat corner otherwise. -/
def renderDrawLeft (hasPrev : Bool) (m : RMetrics) : List PathCmd :=
  if hasPrev then
    [.moveRel CORNER_RADIUS 0, .arcAbs 0 CORNER_RADIUS,
     .vAbs (m.height - CORNER_RADIUS - 8 - NOTCH_HEIGHT)] ++
    NOTCH_PATH_DOWN ++
    [.vAbs (m.height - CORNER_RADIUS)]
  else
    [.moveRel HAT_CORNER_RADIUS 0, .arcAbs 0 HAT_CORNER_RADIUS,
     .vAbs (m.height - HAT_CORNER_RADIUS)]

/-- `renderDrawBottom_` (lines 1612-1703): bottom-left corner, optional
statement recess, bottom edge up to the bottom-right corner. -/
def renderDrawBottom (hasPrev hasNext : Bool) (m : RMetrics) : List PathCmd :=
  (if hasPrev then [PathCmd.arcRel CORNER_RADIUS CORNER_RADIUS]
   else [PathCmd.arcRel HAT_CORNER_RADIUS HAT_CORNER_RADIUS]) ++
  (if m.hasStatement then
    [.hRel 8, .arcRel CORNER_RADIUS (-CORNER_RADIUS), .vRel (-8)] ++
    NOTCH_PATH_UP ++
    [.vRel (-50 + CORNER_RADIUS * 2 + NOTCH_HEIGHT + 8),
     .arcRel CORNER_RADIUS (-CORNER_RADIUS),
     .hRel (20 - CORNER_RADIUS * 2),
     .arcRel CORNER_RADIUS CORNER_RADIUS,
     .vRel (50 - CORNER_RADIUS * 2 - NOTCH_HEIGHT - 8)] ++
    NOTCH_PATH_DOWN ++
    [.vRel 8, .arcRel CORNER_RADIUS CORNER_RADIUS]
   else []) ++
  (if hasNext then [PathCmd.hAbs (m.width - CORNER_RADIUS)]
   else [PathCmd.hAbs (m.width - HAT_CORNER_RADIUS)])

/-- `renderDrawRight_` (lines 1712-1747): bottom-right corner, optional
next-connection notch, right edge. -/
def renderDrawRight (hasNext : Bool) (m : RMetrics) : List PathCmd :=
  (if hasNext then [PathCmd.arcRel CORNER_RADIUS (-CORNER_RADIUS)]
   else [PathCmd.arcRel HAT_CORNER_RADIUS (-HAT_CORNER_RADIUS)]) ++
  [.vRel (-8)] ++
  (if hasNext then NOTCH_PATH_UP ++ [PathCmd.vAbs CORNER_RADIUS]
   else [PathCmd.vAbs HAT_CORNER_RADIUS])

/-- `renderDrawTop_` (lines 1756-1770): top-right corner and closepath. -/
def renderDrawTop (hasNext : Bool) : List PathCmd :=
  (if hasNext then [PathCmd.arcRel (-CORNER_RADIUS) (-CORNER_RADIUS)]
   else [PathCmd.arcRel (-HAT_CORNER_RADIUS) (-HAT_CORNER_RADIUS)]) ++
  [.close]

/-- `renderDraw_` (lines 1536-1548): left, bottom, right, top, in that
order. -/
def blockOutlinePath (hasPrev hasNext : Bool) (m : RMetrics) : List PathCmd :=
  renderDrawLeft hasPrev m ++ renderDrawBottom hasPrev hasNext m ++
  renderDrawRight hasNext m ++ renderDrawTop hasNext

/-- C1.  For every combination of previous-connection notch vs. hat
corner, next-connection notch present or absent, and statement recess
present or absent (and any metrics), the assembled outline is a single
closed contour: executing the emitted commands from the origin returns
the current point to the contour's starting point, and the point reached
just before the final closepath already lies back on the starting
y-coordinate 0, so the closing segment is the straight horizontal top
edge. -/
theorem renderDraw_outline_closed (hasPrev hasNext : Bool) (m : RMetrics) :
    (execPath (blockOutlinePath hasPrev hasNext m) ⟨(0, 0), (0, 0)⟩).cur =
      (execPath (blockOutlinePath hasPrev hasNext m) ⟨(0, 0), (0, 0)⟩).start ∧
    (execPath (blockOutlinePath hasPrev hasNext m) ⟨(0, 0), (0, 0)⟩).start =
      ((if hasPrev then CORNER_RADIUS else HAT_CORNER_RADIUS), 0) ∧
    (execPath ((blockOutlinePath hasPrev hasNext m).dropLast)
        ⟨(0, 0), (0, 0)⟩).cur.2 = 0 := by
  obtain ⟨hstmt, icon, w, h⟩ := m
  cases hasPrev <;> cases hasNext <;> cases hstmt <;>
    simp [blockOutlinePath, renderDrawLeft, renderDrawBottom,
      renderDrawRight, renderDrawTop, NOTCH_PATH_DOWN, NOTCH_PATH_UP,
      execPath, stepCmd, List.dropLast, CORNER_RADIUS, HAT_CORNER_RADIUS,
      NOTCH_HEIGHT]

/-! ## Proximity scan during free dragging (`onMouseMove_`, lines
661-703) -/

/-- Connection kinds (spec §4.2 / glossary). -/
inductive CKind where
  | inputValue
  | outputValue
  | nextStatement
  | prevStatement
deriving DecidableEq

/-- The complementary kind a connection can attach to. -/
def oppositeKind : CKind → CKind
  | .inputValue => .outputValue
  | .outputValue => .inputValue
  | .nextStatement => .prevStatement
  | .prevStatement => .nextStatement

/-- A connection point: absolute position and kind. -/
structure CPoint where
  x : ℚ
  y : ℚ
  kind : CKind
deriving DecidableEq

/-- Squared Euclidean distance from connection `c`, displaced by the trial
offset `(dx, dy)`, to candidate `t`.  All the comparisons below are of
the form `dist < r` between nonnegative quantities, so they are stated on
squares, which keeps the arithmetic exact in `ℚ`. -/
def distSq (c : CPoint) (dx dy : ℚ) (t : CPoint) : ℚ :=
  (c.x + dx - t.x) ^ 2 + (c.y + dy - t.y) ^ 2

/-- Modelled from the spec: `Blockly.Connection.prototype.closest` is not
part of `src/` (only its caller `onMouseMove_` is); §4.2 specifies it as
scanning candidate connections of the complementary kind, computing the
Euclidean distance after applying the trial offset `(dx, dy)`, and
returning the closest one strictly within the given radius, ties broken
by the first candidate encountered.  One scan step: accept the candidate
when it is compatible and strictly closer than the retained radius. -/
def closestStep (c : CPoint) (dx dy : ℚ) (acc : Option CPoint × ℚ)
    (t : CPoint) : Option CPoint × ℚ :=
  if t.kind = oppositeKind c.kind ∧ distSq c dx dy t < acc.2
  then (some t, distSq c dx dy t) else acc

/-- Modelled from the spec: the full `closest` query over a candidate
list, returning the retained candidate (if any) and the retained
(squared) radius, which is the accepted candidate's distance. -/
def closestConn (c : CPoint) (cands : List CPoint) (rSq dx dy : ℚ) :
    Option CPoint × ℚ :=
  cands.foldl (closestStep c dx dy) (none, rSq)

/-- One iteration of the `onMouseMove_` loop over the dragged block's own
connections (lines 680-688): query `closest` with the current retained
radius; on a hit, retain the pair and shrink the radius to the returned
one. -/
def scanStep (cands : List CPoint) (dx dy : ℚ)
    (acc : Option (CPoint × CPoint) × ℚ) (my : CPoint) :
    Option (CPoint × CPoint) × ℚ :=
  match (closestConn my cands acc.2 dx dy).1 with
  | some t => (some (my, t), (closestConn my cands acc.2 dx dy).2)
  | none => acc

/-- The whole per-move proximity scan of `onMouseMove_` (lines 676-688):
fold over the dragged block's own connections, starting from the initial
search radius (`Blockly.SNAP_RADIUS`, squared). -/
def connectionScan (myConns cands : List CPoint) (rSq0 dx dy : ℚ) :
    Option (CPoint × CPoint) × ℚ :=
  myConns.foldl (scanStep cands dx dy) (none, rSq0)

theorem closestStep_snd_le (c : CPoint) (dx dy : ℚ)
    (acc : Option CPoint × ℚ) (t : CPoint) :
    (closestStep c dx dy acc t).2 ≤ acc.2 := by
  unfold closestStep
  split
  · next hcond => exact le_of_lt hcond.2
  · exact le_refl _

theorem closest_foldl_snd_le (c : CPoint) (dx dy : ℚ)
    (cands : List CPoint) (acc : Option CPoint × ℚ) :
    (cands.foldl (closestStep c dx dy) acc).2 ≤ acc.2 := by
  induction cands generalizing acc with
  | nil => exact le_refl _
  | cons u rest ih =>
      exact le_trans (ih (closestStep c dx dy acc u))
        (closestStep_snd_le c dx dy acc u)

theorem closest_foldl_min (c : CPoint) (dx dy : ℚ) (cands : List CPoint)
    (acc : Option CPoint × ℚ) (t : CPoint) (ht : t ∈ cands)
    (hk : t.kind = oppositeKind c.kind) :
    (cands.foldl (closestStep c dx dy) acc).2 ≤ distSq c dx dy t := by
  induction cands generalizing acc with
  | nil => cases ht
  | cons u rest ih =>
      rcases List.mem_cons.1 ht with rfl | hmem
      · refine le_trans (closest_foldl_snd_le c dx dy rest _) ?_
        unfold closestStep
        split
        · exact le_refl _
        · next hcond =>
            push_neg at hcond
            exact le_of_not_lt (fun hlt => absurd (hcond hk) (not_le.2 hlt))
      · exact ih (closestStep c dx dy acc u) hmem

theorem closest_foldl_isSome (c : CPoint) (dx dy : ℚ)
    (cands : List CPoint) (acc : Option CPoint × ℚ)
    (h : acc.1.isSome = true) :
    ((cands.foldl (closestStep c dx dy) acc).1).isSome = true := by
  induction cands generalizing acc with
  | nil => exact h
  | cons u rest ih =>
      refine ih (closestStep c dx dy acc u) ?_
      unfold closestStep
      split
      · rfl
      · exact h

theorem closest_foldl_some (c : CPoint) (dx dy : ℚ) (cands : List CPoint)
    (acc : Option CPoint × ℚ) (t : CPoint)
    (h : (cands.foldl (closestStep c dx dy) acc).1 = some t) :
    (t ∈ cands ∧ t.kind = oppositeKind c.kind ∧
      (cands.foldl (closestStep c dx dy) acc).2 = distSq c dx dy t ∧
      (cands.foldl (closestStep c dx dy) acc).2 < acc.2) ∨
    (acc.1 = some t ∧
      (cands.foldl (closestStep c dx dy) acc).2 = acc.2) := by
  induction cands generalizing acc with
  | nil => exact Or.inr ⟨h, rfl⟩
  | cons u rest ih =>
      simp only [List.foldl_cons] at h ⊢
      rcases ih (closestStep c dx dy acc u) h with
        ⟨hmem, hk, hsnd, hlt⟩ | ⟨hfst, hsnd⟩
      · exact Or.inl ⟨List.mem_cons_of_mem u hmem, hk, hsnd,
          lt_of_lt_of_le hlt (closestStep_snd_le c dx dy acc u)⟩
      · revert hfst hsnd
        unfold closestStep
        split
        · next hcond =>
            intro hfst hsnd
            obtain rfl := Option.some.inj hfst
            refine Or.inl ⟨List.mem_cons_self _ _, hcond.1, hsnd, ?_⟩
            rw [hsnd]
            exact hcond.2
        · intro hfst hsnd
          exact Or.inr ⟨hfst, hsnd⟩

theorem closest_foldl_none (c : CPoint) (dx dy : ℚ) (cands : List CPoint)
    (acc : Option CPoint × ℚ)
    (h : (cands.foldl (closestStep c dx dy) acc).1 = none) :
    cands.foldl (closestStep c dx dy) acc = acc ∧
    (∀ t ∈ cands, t.kind = oppositeKind c.kind →
      ¬(distSq c dx dy t < acc.2)) := by
  induction cands generalizing acc with
  | nil => exact ⟨rfl, by intro t ht; cases ht⟩
  | cons u rest ih =>
      simp only [List.foldl_cons] at h ⊢
      have hstep : closestStep c dx dy acc u = acc := by
        by_cases hcond : u.kind = oppositeKind c.kind ∧
            distSq c dx dy u < acc.2
        · exfalso
          have hfold : rest.foldl (closestStep c dx dy)
              (closestStep c dx dy acc u) =
              rest.foldl (closestStep c dx dy)
                (some u, distSq c dx dy u) := by
            unfold closestStep
            rw [if_pos hcond]
          have hIs := closest_foldl_isSome c dx dy rest
            (some u, distSq c dx dy u) rfl
          rw [← hfold, h] at hIs
          cases hIs
        · unfold closestStep
          rw [if_neg hcond]
      rw [hstep] at h ⊢
      obtain ⟨heq, hall⟩ := ih acc h
      refine ⟨heq, ?_⟩
      intro t ht hk
      rcases List.mem_cons.1 ht with rfl | hmem
      · intro hlt
        have hsome : acc.1 = some t := by
          have hacc : closestStep c dx dy acc t =
              (some t, distSq c dx dy t) := by
            unfold closestStep
            rw [if_pos ⟨hk, hlt⟩]
          rw [hstep] at hacc
          rw [hacc]
        have hIs := closest_foldl_isSome c dx dy rest acc
          (by rw [hsome]; rfl)
        rw [h] at hIs
        cases hIs
      · exact hall t hmem hk

theorem scanStep_snd_le (cands : List CPoint) (dx dy : ℚ)
    (acc : Option (CPoint × CPoint) × ℚ) (my : CPoint) :
    (scanStep cands dx dy acc my).2 ≤ acc.2 := by
  cases hm : (closestConn my cands acc.2 dx dy).1 with
  | some t =>
      have : scanStep cands dx dy acc my =
          (some (my, t), (closestConn my cands acc.2 dx dy).2) := by
        simp [scanStep, hm]
      rw [this]
      exact closest_foldl_snd_le my dx dy cands (none, acc.2)
  | none =>
      have : scanStep cands dx dy acc my = acc := by
        simp [scanStep, hm]
      rw [this]

theorem scan_foldl_snd_le (cands : List CPoint) (dx dy : ℚ)
    (l : List CPoint) (acc : Option (CPoint × CPoint) × ℚ) :
    (l.foldl (scanStep cands dx dy) acc).2 ≤ acc.2 := by
  induction l generalizing acc with
  | nil => exact le_refl _
  | cons u rest ih =>
      exact le_trans (ih (scanStep cands dx dy acc u))
        (scanStep_snd_le cands dx dy acc u)

theorem scan_foldl_min (cands : List CPoint) (dx dy : ℚ)
    (l : List CPoint) (acc : Option (CPoint × CPoint) × ℚ)
    (my t : CPoint) (hmy : my ∈ l) (ht : t ∈ cands)
    (hk : t.kind = oppositeKind my.kind) :
    (l.foldl (scanStep cands dx dy) acc).2 ≤ distSq my dx dy t := by
  induction l generalizing acc with
  | nil => cases hmy
  | cons u rest ih =>
      rcases List.mem_cons.1 hmy with rfl | hmem
      · refine le_trans (scan_foldl_snd_le cands dx dy rest _) ?_
        cases hm : (closestConn my cands acc.2 dx dy).1 with
        | some t2 =>
            have hstep : scanStep cands dx dy acc my =
                (some (my, t2), (closestConn my cands acc.2 dx dy).2) := by
              simp [scanStep, hm]
            rw [hstep]
            exact closest_foldl_min my dx dy cands (none, acc.2) t ht hk
        | none =>
            have hstep : scanStep cands dx dy acc my = acc := by
              simp [scanStep, hm]
            rw [hstep]
            exact le_of_not_lt
              ((closest_foldl_none my dx dy cands (none, acc.2) hm).2 t ht hk)
      · exact ih (scanStep cands dx dy acc u) hmem

theorem scan_foldl_isSome (cands : List CPoint) (dx dy : ℚ)
    (l : List CPoint) (acc : Option (CPoint × CPoint) × ℚ)
    (h : acc.1.isSome = true) :
    ((l.foldl (scanStep cands dx dy) acc).1).isSome = true := by
  induction l generalizing acc with
  | nil => exact h
  | cons u rest ih =>
      refine ih (scanStep cands dx dy acc u) ?_
      cases hm : (closestConn u cands acc.2 dx dy).1 with
      | some t => simp [scanStep, hm]
      | none =>
          have : scanStep cands dx dy acc u = acc := by simp [scanStep, hm]
          rw [this]
          exact h

theorem scan_foldl_some (cands : List CPoint) (dx dy : ℚ)
    (l : List CPoint) (acc : Option (CPoint × CPoint) × ℚ)
    (p : CPoint × CPoint)
    (h : (l.foldl (scanStep cands dx dy) acc).1 = some p) :
    (p.1 ∈ l ∧ p.2 ∈ cands ∧ p.2.kind = oppositeKind p.1.kind ∧
      (l.foldl (scanStep cands dx dy) acc).2 = distSq p.1 dx dy p.2 ∧
      (l.foldl (scanStep cands dx dy) acc).2 < acc.2) ∨
    (acc.1 = some p ∧ (l.foldl (scanStep cands dx dy) acc).2 = acc.2) := by
  induction l generalizing acc with
  | nil => exact Or.inr ⟨h, rfl⟩
  | cons u rest ih =>
      simp only [List.foldl_cons] at h ⊢
      rcases ih (scanStep cands dx dy acc u) h with
        ⟨h1, h2, h3, h4, h5⟩ | ⟨hfst, hsnd⟩
      · exact Or.inl ⟨List.mem_cons_of_mem u h1, h2, h3, h4,
          lt_of_lt_of_le h5 (scanStep_snd_le cands dx dy acc u)⟩
      · cases hm : (closestConn u cands acc.2 dx dy).1 with
        | some t =>
            have hstep : scanStep cands dx dy acc u =
                (some (u, t), (closestConn u cands acc.2 dx dy).2) := by
              simp [scanStep, hm]
            rw [hstep] at hfst hsnd ⊢
            obtain rfl := Option.some.inj hfst
            rcases closest_foldl_some u dx dy cands (none, acc.2) t hm with
              ⟨m1, m2, m3, m4⟩ | ⟨hcontra, _⟩
            · refine Or.inl ⟨List.mem_cons_self _ _, m1, m2, ?_, ?_⟩
              · rw [hsnd]
                exact m3
              · rw [hsnd]
                exact m4
            · cases hcontra
        | none =>
            have hstep : scanStep cands dx dy acc u = acc := by
              simp [scanStep, hm]
            rw [hstep] at hfst hsnd ⊢
            exact Or.inr ⟨hfst, hsnd⟩

/-- C4.  The per-move proximity scan of `onMouseMove_` over the dragged
block's own connections: a selected candidate pair is always compatible
and strictly within the initial search (squared) radius; when no
compatible pair lies strictly within the radius the result is null; and
the selected pair minimizes the (squared) Euclidean distance after the
trial offset over all compatible pairs, because the retained radius
shrinks to each accepted candidate's distance. -/
theorem connectionScan_within_radius (myConns cands : List CPoint)
    (rSq0 dx dy : ℚ) :
    (∀ my t, (connectionScan myConns cands rSq0 dx dy).1 = some (my, t) →
      my ∈ myConns ∧ t ∈ cands ∧ t.kind = oppositeKind my.kind ∧
      distSq my dx dy t < rSq0 ∧
      ∀ my2 ∈ myConns, ∀ t2 ∈ cands, t2.kind = oppositeKind my2.kind →
        distSq my dx dy t ≤ distSq my2 dx dy t2) ∧
    ((∀ my ∈ myConns, ∀ t ∈ cands, t.kind = oppositeKind my.kind →
        ¬(distSq my dx dy t < rSq0)) →
      (connectionScan myConns cands rSq0 dx dy).1 = none) := by
  constructor
  · intro my t h
    rcases scan_foldl_some cands dx dy myConns (none, rSq0) (my, t) h with
      ⟨h1, h2, h3, h4, h5⟩ | ⟨hcontra, _⟩
    · refine ⟨h1, h2, h3, ?_, ?_⟩
      · rw [← h4]
        exact h5
      · intro my2 hmy2 t2 ht2 hk2
        rw [← h4]
        exact scan_foldl_min cands dx dy myConns (none, rSq0) my2 t2
          hmy2 ht2 hk2
    · cases hcontra
  · intro hnone
    cases hca : (connectionScan myConns cands rSq0 dx dy).1 with
    | none => rfl
    | some p =>
        rcases scan_foldl_some cands dx dy myConns (none, rSq0) p hca with
          ⟨h1, h2, h3, h4, h5⟩ | ⟨hcontra, _⟩
        · refine absurd ?_ (hnone p.1 h1 p.2 h2 h3)
          rw [← h4]
          exact h5
        · cases hcontra

/-- C4 witness: a single previous-connection at the origin against one
compatible candidate at distance 1 (squared), radius 100 squared units:
it is selected and its distance is strictly within the radius. -/
theorem connectionScan_within_radius_witness :
    (connectionScan [⟨0, 0, .prevStatement⟩] [⟨1, 0, .nextStatement⟩]
        100 0 0).1 =
      some (⟨0, 0, .prevStatement⟩, ⟨1, 0, .nextStatement⟩) ∧
    distSq ⟨0, 0, .prevStatement⟩ 0 0 ⟨1, 0, .nextStatement⟩ < 100 := by
  have hscan : (connectionScan [⟨0, 0, .prevStatement⟩]
      [⟨1, 0, .nextStatement⟩] 100 0 0).1 =
      some (⟨0, 0, .prevStatement⟩, ⟨1, 0, .nextStatement⟩) := by
    have h1 : distSq ⟨0, 0, .prevStatement⟩ 0 0 ⟨1, 0, .nextStatement⟩
        = 1 := by
      norm_num [distSq]
    simp [connectionScan, scanStep, closestConn, closestStep,
      oppositeKind, h1]
  refine ⟨hscan, ?_⟩
  exact ((connectionScan_within_radius
      [⟨0, 0, .prevStatement⟩] [⟨1, 0, .nextStatement⟩] 100 0 0).1
    _ _ hscan).2.2.2.1

/-! ## Pointer-up resolution and mid-drag disposal (`onMouseUp_` lines
444-481, `Blockly.BlockSvg.terminateDrag_` lines 196-228, `dispose`
lines 884-920) -/

/-- A connection as the mouse-up handler sees it: its source block and
whether it is the structurally superior side of the prospective
pairing. -/
structure DragConn where
  src : ℕ
  superior : Bool
deriving DecidableEq

/-- Observable actions performed while resolving a pointer-up. -/
inductive Effect where
  | disconnectAnimStopE
  | unbindUpE
  | unbindMoveE
  | moveConnsE
  | renderE
  | snapTimerE
  | bumpTimerE
  | resizeE
  | changeEventE
  | connectE (a b : DragConn)
  | connectAnimE (blk : ℕ)
  | trashCloseE
  | trashCloseTimerE
  | disposeBlockE (blk : ℕ)
  | unhighlightE
  | cursorOpenE
deriving DecidableEq

/-- The global state the mouse-up path reads and writes:
`Blockly.dragMode_`, `Blockly.selected`, the two document handler
bindings, `Blockly.highlightedConnection_`/`Blockly.localConnection_`,
and the dragged (handler-bound) block's relevant state; `dead` lists the
ids of disposed blocks. -/
structure Sess where
  dragMode : ℕ
  selected : Option ℕ
  upBound : Bool
  moveBound : Bool
  highlighted : Option DragConn
  localConn : Option DragConn
  thisParent : Option ℕ
  thisRendered : Bool
  selectedDeletable : Bool
  inDeleteArea : Bool
  hasTrashcan : Bool
  dead : List ℕ
deriving DecidableEq

def isConnectEffect : Effect → Bool
  | .connectE _ _ => true
  | _ => false

def isConnectAnimEffect : Effect → Bool
  | .connectAnimE _ => true
  | _ => false

/-- `Blockly.BlockSvg.terminateDrag_` (lines 196-228): stop the
disconnect animation, unbind the document handlers, and when a free drag
(mode 2) is being terminated with a selected block, update its
connections, re-render it and schedule the deferred snap-to-grid and
bump passes; reading the state of an already-disposed selected block is
a stale dereference, modelled as an error. -/
def terminateDragSvg (s : Sess) : Except Unit (List Effect × Sess) :=
  let effs := [Effect.disconnectAnimStopE] ++
    (if s.upBound then [Effect.unbindUpE] else []) ++
    (if s.moveBound then [Effect.unbindMoveE] else [])
  let s1 : Sess :=
    { s with upBound := false, moveBound := false, dragMode := 0 }
  if s.dragMode = 2 then
    match s.selected with
    | some b =>
        if b ∈ s.dead then .error ()
        else .ok (effs ++ [Effect.moveConnsE, Effect.renderE,
          Effect.snapTimerE, Effect.bumpTimerE, Effect.resizeE,
          Effect.changeEventE], s1)
    | none => .ok (effs, s1)
  else .ok (effs, s1)

/-- `Blockly.BlockSvg.prototype.onMouseUp_` (lines 444-481): terminate
the drag, then either commit the highlighted connection — playing the
connect feedback on the source block of whichever of the two connections
is not superior, and closing the trashcan — or dispose the block when it
is top-level, deletable and over the delete area, or leave it; finally
clear the highlight and restore the open cursor.  A null dereference of
`Blockly.localConnection_` or `Blockly.selected`, or a read of a
disposed block's state, is modelled as an error. -/
def onMouseUpM (s : Sess) : Except Unit (List Effect × Sess) := do
  let (e0, s0) ← terminateDragSvg s
  if s0.selected.isSome ∧ s0.highlighted.isSome then
    match s0.localConn, s0.highlighted with
    | some l, some h =>
        .ok (e0 ++ [Effect.connectE l h] ++
          (if s0.thisRendered then
            [Effect.connectAnimE (if l.superior then h.src else l.src)]
           else []) ++
          (if s0.hasTrashcan then [Effect.trashCloseE] else []) ++
          [Effect.unhighlightE, Effect.cursorOpenE],
          { s0 with highlighted := none })
    | none, _ => .error ()
    | _, none => .error ()
  else
    if s0.thisParent = none then
      match s0.selected with
      | none => .error ()
      | some sb =>
          if sb ∈ s0.dead then .error ()
          else if s0.selectedDeletable ∧ s0.inDeleteArea then
            .ok (e0 ++
              (if s0.hasTrashcan then [Effect.trashCloseTimerE] else []) ++
              [Effect.disposeBlockE sb, Effect.resizeE] ++
              (if s0.highlighted.isSome then [Effect.unhighlightE]
               else []) ++ [Effect.cursorOpenE],
              { s0 with highlighted := none, dead := sb :: s0.dead })
          else
            .ok (e0 ++
              (if s0.highlighted.isSome then [Effect.unhighlightE]
               else []) ++ [Effect.cursorOpenE],
              { s0 with highlighted := none })
    else
      .ok (e0 ++
        (if s0.highlighted.isSome then [Effect.unhighlightE] else []) ++
        [Effect.cursorOpenE], { s0 with highlighted := none })

/-- A document mouseup event: the handler only runs while the binding
installed by `onMouseDown_` is still in place. -/
def pointerUp (s : Sess) : Except Unit (List Effect × Sess) :=
  if s.upBound then onMouseUpM s else .ok ([], s)

/-- `Blockly.BlockSvg.prototype.dispose` (lines 884-920), the parts
relevant to the drag session: when the disposed block is the selected
one, the active drag is force-terminated first (unbinding the document
handlers); then the block is marked dead.  `Blockly.terminateDrag_` is
not in src/; modelled from the spec (§5: starting/ending a session
force-terminates the existing one) as delegating to
`Blockly.BlockSvg.terminateDrag_`. -/
def disposeBlock (b : ℕ) (s : Sess) : Sess :=
  let s1 := if s.selected = some b then
      match terminateDragSvg s with
      | .ok (_, s2) => s2
      | .error _ => s
    else s
  { s1 with dead := b :: s1.dead }

theorem terminateDragSvg_ok (s : Sess)
    (h : ∀ b, s.dragMode = 2 → s.selected = some b → b ∉ s.dead) :
    terminateDragSvg s =
      .ok ([Effect.disconnectAnimStopE] ++
        (if s.upBound then [Effect.unbindUpE] else []) ++
        (if s.moveBound then [Effect.unbindMoveE] else []) ++
        (if s.dragMode = 2 ∧ s.selected.isSome = true then
          [Effect.moveConnsE, Effect.renderE, Effect.snapTimerE,
           Effect.bumpTimerE, Effect.resizeE, Effect.changeEventE]
         else []),
        { s with upBound := false, moveBound := false, dragMode := 0 }) := by
  unfold terminateDragSvg
  by_cases hdm : s.dragMode = 2
  · cases hsel : s.selected with
    | some b =>
        have hd := h b hdm hsel
        simp [hdm, hsel, hd]
    | none => simp [hdm, hsel]
  · simp [hdm]

theorem terminate_effects_no_connect (s : Sess) :
    ([Effect.disconnectAnimStopE] ++
     (if s.upBound then [Effect.unbindUpE] else []) ++
     (if s.moveBound then [Effect.unbindMoveE] else []) ++
     (if s.dragMode = 2 ∧ s.selected.isSome = true then
       [Effect.moveConnsE, Effect.renderE, Effect.snapTimerE,
        Effect.bumpTimerE, Effect.resizeE, Effect.changeEventE]
      else [])).countP isConnectEffect = 0 ∧
    ([Effect.disconnectAnimStopE] ++
     (if s.upBound then [Effect.unbindUpE] else []) ++
     (if s.moveBound then [Effect.unbindMoveE] else []) ++
     (if s.dragMode = 2 ∧ s.selected.isSome = true then
       [Effect.moveConnsE, Effect.renderE, Effect.snapTimerE,
        Effect.bumpTimerE, Effect.resizeE, Effect.changeEventE]
      else [])).countP isConnectAnimEffect = 0 := by
  cases hub : s.upBound <;> cases hmb : s.moveBound <;>
    by_cases hdm : (s.dragMode = 2 ∧ s.selected.isSome = true) <;>
      simp [hub, hmb, hdm, isConnectEffect, isConnectAnimEffect,
        List.countP_append, List.countP_cons]

/-- C3.  When the pointer is released while a highlighted candidate
exists (with a selected block and the handler's block rendered, as during
a live drag), the mouse-up handler succeeds, commits exactly one connect
operation (the local connection to the highlighted one) and plays exactly
one connect-feedback animation, on the source block of whichever of the
two connections is not superior. -/
theorem onMouseUp_connect_once (s : Sess) (sb : ℕ) (l h : DragConn)
    (hsel : s.selected = some sb) (hh : s.highlighted = some h)
    (hl : s.localConn = some l) (hr : s.thisRendered = true)
    (halive : sb ∉ s.dead) :
    ∃ out, onMouseUpM s = .ok out ∧
      out.1.countP isConnectEffect = 1 ∧
      out.1.countP isConnectAnimEffect = 1 ∧
      Effect.connectE l h ∈ out.1 ∧
      Effect.connectAnimE (if l.superior then h.src else l.src) ∈ out.1 := by
  have hterm := terminateDragSvg_ok s (fun b hdm hb => by
    rw [hsel] at hb
    cases hb
    exact halive)
  obtain ⟨hcount1, hcount2⟩ := terminate_effects_no_connect s
  unfold onMouseUpM
  rw [hterm]
  simp only [Except.bind, pure, bind]
  simp only [hsel, hh, hl, hr, Option.isSome_some, and_self, if_true]
  refine ⟨_, rfl, ?_, ?_, ?_, ?_⟩
  · simp only [and_true]
    simp only [hsel, Option.isSome_some, and_true] at hcount1
    rw [List.countP_append, List.countP_append, List.countP_append,
      List.countP_append, hcount1]
    cases htc : s.hasTrashcan <;>
      simp [isConnectEffect, List.countP_cons]
  · simp only [and_true]
    simp only [hsel, Option.isSome_some, and_true] at hcount2
    rw [List.countP_append, List.countP_append, List.countP_append,
      List.countP_append, hcount2]
    cases htc : s.hasTrashcan <;>
      simp [isConnectAnimEffect, List.countP_cons]
  · simp
  · simp

/-- C3 witness: a concrete mid-drag state (free drag, block 3 selected
and rendered, local connection of block 3 superior, highlighted candidate
on block 5): the release commits one connect, and one feedback animation
on block 5, the inferior side. -/
theorem onMouseUp_connect_once_witness :
    ∃ out, onMouseUpM ⟨2, some 3, true, true, some ⟨5, false⟩,
        some ⟨3, true⟩, none, true, true, false, true, []⟩ = .ok out ∧
      out.1.countP isConnectEffect = 1 ∧
      out.1.countP isConnectAnimEffect = 1 ∧
      Effect.connectE ⟨3, true⟩ ⟨5, false⟩ ∈ out.1 ∧
      Effect.connectAnimE 5 ∈ out.1 := by
  have hc := onMouseUp_connect_once ⟨2, some 3, true, true,
      some ⟨5, false⟩, some ⟨3, true⟩, none, true, true, false, true, []⟩
    3 ⟨3, true⟩ ⟨5, false⟩ rfl rfl rfl rfl (by simp)
  simpa using hc

/-- C10.  If the dragged (selected) block is disposed mid-drag, the
disposal force-terminates the session — unbinding the document mouse-up
handler and resetting the drag mode — so the subsequent pointer-up is a
safe no-op: it succeeds without reading any state of the disposed block
and without effects, leaving the state unchanged. -/
theorem disposed_midDrag_pointerUp_noop (s : Sess) (b : ℕ)
    (hsel : s.selected = some b) (halive : b ∉ s.dead) :
    pointerUp (disposeBlock b s) = .ok ([], disposeBlock b s) ∧
    (disposeBlock b s).upBound = false ∧
    (disposeBlock b s).dragMode = 0 := by
  have hterm := terminateDragSvg_ok s (fun b2 hdm hb2 => by
    rw [hsel] at hb2
    cases hb2
    exact halive)
  have hdis : disposeBlock b s =
      { s with
        upBound := false
        moveBound := false
        dragMode := 0
        dead := b :: s.dead } := by
    unfold disposeBlock
    rw [hterm]
    simp [hsel]
  rw [hdis]
  refine ⟨?_, rfl, rfl⟩
  unfold pointerUp
  simp

/-- C10 witness: a concrete free-drag session on block 7; disposing
block 7 and then releasing the pointer is a no-op. -/
theorem disposed_midDrag_pointerUp_noop_witness :
    pointerUp (disposeBlock 7 ⟨2, some 7, true, true, none, none, none,
        true, true, true, true, []⟩) =
      .ok ([], disposeBlock 7 ⟨2, some 7, true, true, none, none, none,
        true, true, true, true, []⟩) :=
  (disposed_midDrag_pointerUp_noop ⟨2, some 7, true, true, none, none,
    none, true, true, true, true, []⟩ 7 rfl (by simp)).1
